import Mathlib

/-!
Verification development for the wormhole URL-shortener core:
the Tinyflake bit-packed identifier codec (`wormhole-tinyflake/src/tiny_id.rs`),
the Tinyflake generator (`wormhole-tinyflake/src/tinyflake.rs`),
the ID obfuscator (`wormhole-generator/src/obfuscated.rs`),
the short-code model (`wormhole-core/src/shortcode.rs`, `base58.rs`),
the cache contract and its default `get_or_compute`
(`wormhole-core/src/cache.rs`), the layered cache
(`wormhole-cache/src/layered.rs`) and the cached repository decorator
(`wormhole-redirector/src/repository/cached.rs`).

Machine integers are embedded as `Nat`/`Int` with explicit `% 2^w`
where wrap-around matters; fallible Rust code returns `Except`.
-/

namespace Wormhole

/-! ## TinyId: the 40-bit bit-packed identifier

`tiny_id.rs` declares, via the `modular_bitfield` crate:

  #[bitfield] pub struct TinyId { timestamp: B30, sequence: B8, node_id: B2 }

`modular_bitfield` allocates fields starting from the least significant
bit of the backing bytes: `timestamp` occupies bits 0..=29, `sequence`
bits 30..=37 and `node_id` bits 38..=39 of the 40-bit backing value, and
`into_bytes` returns the backing bytes with byte 0 holding bits 0..=7
(little-endian).  We embed the struct as its 40-bit backing value. -/

structure TinyId where
  repr : Nat
deriving DecidableEq, Repr

namespace TinyId

/-- `TinyId::new()`: all fields zero. -/
def new : TinyId := ⟨0⟩

/-- Getter of the `timestamp: B30` field (bits 0..=29). -/
def timestamp (id : TinyId) : Nat := id.repr % 2 ^ 30

/-- Getter of the `sequence: B8` field (bits 30..=37). -/
def sequence (id : TinyId) : Nat := id.repr / 2 ^ 30 % 2 ^ 8

/-- Getter of the `node_id: B2` field (bits 38..=39). -/
def nodeId (id : TinyId) : Nat := id.repr / 2 ^ 38 % 2 ^ 2

/-- Setter `with_timestamp`: replaces bits 0..=29.  The `% 2 ^ 30` totalises
the out-of-range case, which `modular_bitfield` rejects at runtime; every
call site passes an in-range value. -/
def withTimestamp (id : TinyId) (t : Nat) : TinyId :=
  ⟨id.repr / 2 ^ 30 * 2 ^ 30 + t % 2 ^ 30⟩

/-- Setter `with_sequence`: replaces bits 30..=37. -/
def withSequence (id : TinyId) (s : Nat) : TinyId :=
  ⟨id.repr / 2 ^ 38 * 2 ^ 38 + s % 2 ^ 8 * 2 ^ 30 + id.repr % 2 ^ 30⟩

/-- Setter `with_node_id`: replaces bits 38..=39. -/
def withNodeId (id : TinyId) (n : Nat) : TinyId :=
  ⟨n % 2 ^ 2 * 2 ^ 38 + id.repr % 2 ^ 38⟩

/-- `TinyId::into_bytes()`: the five backing bytes, byte 0 = bits 0..=7,
…, byte 4 = bits 32..=39 (the `modular_bitfield` byte order). -/
def intoBytes (id : TinyId) : List Nat :=
  [id.repr % 2 ^ 8, id.repr / 2 ^ 8 % 2 ^ 8, id.repr / 2 ^ 16 % 2 ^ 8,
   id.repr / 2 ^ 24 % 2 ^ 8, id.repr / 2 ^ 32 % 2 ^ 8]

/-- `TinyId::from_bytes([u8; 5])`: rebuilds the backing value from the five
bytes, inverse byte order of `intoBytes`.  A list of the wrong length (not
constructible from `[u8; 5]`) maps to the zero id. -/
def fromBytes (bs : List Nat) : TinyId :=
  match bs with
  | [b0, b1, b2, b3, b4] =>
      ⟨b0 + b1 * 2 ^ 8 + b2 * 2 ^ 16 + b3 * 2 ^ 24 + b4 * 2 ^ 32⟩
  | _ => ⟨0⟩

end TinyId

/-- Construction used by the generator and by the round-trip tests:
`TinyId::new().with_timestamp(t).with_sequence(s).with_node_id(n)`. -/
def packId (t s n : Nat) : TinyId :=
  ((TinyId.new.withTimestamp t).withSequence s).withNodeId n

/-- Backing value of `packId` for in-range fields. -/
theorem packId_repr (t s n : Nat) (ht : t < 2 ^ 30) (hs : s < 2 ^ 8) :
    (packId t s n).repr = n % 2 ^ 2 * 2 ^ 38 + s * 2 ^ 30 + t := by
  simp only [packId, TinyId.new, TinyId.withTimestamp, TinyId.withSequence,
    TinyId.withNodeId]
  omega

/-- Field extraction from `packId` for in-range fields (any node value). -/
theorem packId_fields (t s n : Nat) (ht : t < 2 ^ 30) (hs : s < 2 ^ 8) :
    (packId t s n).timestamp = t ∧ (packId t s n).sequence = s ∧
      (packId t s n).nodeId = n % 2 ^ 2 := by
  have h := packId_repr t s n ht hs
  simp only [TinyId.timestamp, TinyId.sequence, TinyId.nodeId, h]
  omega

/-- Byte round-trip: `from_bytes (into_bytes id)` recovers any id whose
backing value fits in 40 bits. -/
theorem fromBytes_intoBytes (id : TinyId) (h : id.repr < 2 ^ 40) :
    TinyId.fromBytes (TinyId.intoBytes id) = id := by
  cases id with
  | mk v =>
    simp only [TinyId.intoBytes, TinyId.fromBytes, TinyId.mk.injEq]
    have d1 : v / 2 ^ 8 / 2 ^ 8 = v / 2 ^ 16 := by
      rw [Nat.div_div_eq_div_mul]; norm_num
    have d2 : v / 2 ^ 16 / 2 ^ 8 = v / 2 ^ 24 := by
      rw [Nat.div_div_eq_div_mul]; norm_num
    have d3 : v / 2 ^ 24 / 2 ^ 8 = v / 2 ^ 32 := by
      rw [Nat.div_div_eq_div_mul]; norm_num
    have d4 : v / 2 ^ 32 / 2 ^ 8 = v / 2 ^ 40 := by
      rw [Nat.div_div_eq_div_mul]; norm_num
    have d5 : v / 2 ^ 40 = 0 := Nat.div_eq_of_lt h
    omega

/-- C3: for every timestamp `t < 2^30`, sequence `s < 2^8` and node
`n < 2^2`, building a `TinyId` from those field values and round-tripping
it through its 5-byte representation yields accessors returning exactly
`t`, `s` and `n` (and the round-tripped id equals the original). -/
theorem tinyid_pack_unpack_roundtrip (t s n : Nat)
    (ht : t < 2 ^ 30) (hs : s < 2 ^ 8) (hn : n < 2 ^ 2) :
    (TinyId.fromBytes (TinyId.intoBytes (packId t s n))).timestamp = t ∧
    (TinyId.fromBytes (TinyId.intoBytes (packId t s n))).sequence = s ∧
    (TinyId.fromBytes (TinyId.intoBytes (packId t s n))).nodeId = n ∧
    TinyId.fromBytes (TinyId.intoBytes (packId t s n)) = packId t s n := by
  have hrepr := packId_repr t s n ht hs
  have hlt : (packId t s n).repr < 2 ^ 40 := by omega
  have hrt := fromBytes_intoBytes (packId t s n) hlt
  have hf := packId_fields t s n ht hs
  refine ⟨?_, ?_, ?_, hrt⟩ <;> rw [hrt]
  · exact hf.1
  · exact hf.2.1
  · exact hf.2.2.trans (Nat.mod_eq_of_lt hn)

/-- Concrete witness for `tinyid_pack_unpack_roundtrip`. -/
theorem tinyid_pack_unpack_roundtrip_witness :
    (TinyId.fromBytes (TinyId.intoBytes (packId 123456 57 2))).timestamp = 123456 ∧
    (TinyId.fromBytes (TinyId.intoBytes (packId 123456 57 2))).sequence = 57 ∧
    (TinyId.fromBytes (TinyId.intoBytes (packId 123456 57 2))).nodeId = 2 ∧
    TinyId.fromBytes (TinyId.intoBytes (packId 123456 57 2)) = packId 123456 57 2 :=
  tinyid_pack_unpack_roundtrip 123456 57 2 (by decide) (by decide) (by decide)

/-! ## C7: the normative bit order of the packed identifier

The spec asserts a big-endian, MSB-first layout.  `modular_bitfield`
actually allocates LSB-first: byte 0 holds the low 8 bits of `t`, and the
top byte holds the high bits of `s` together with `n` in its top 2 bits. -/

/-- Layout claimed by the spec, stated from its words for refutation:
bit 0 (the MSB of byte 0) is the MSB of the 30-bit `t`, bits 30..=37
(MSB-first numbering) hold `s`, bits 38..=39 hold `n`; equivalently the
value `t·2^10 + s·2^2 + n` stored in five big-endian bytes. -/
def specMsbFirstBytes (t s n : Nat) : List Nat :=
  [(t * 2 ^ 10 + s * 2 ^ 2 + n) / 2 ^ 32 % 2 ^ 8,
   (t * 2 ^ 10 + s * 2 ^ 2 + n) / 2 ^ 24 % 2 ^ 8,
   (t * 2 ^ 10 + s * 2 ^ 2 + n) / 2 ^ 16 % 2 ^ 8,
   (t * 2 ^ 10 + s * 2 ^ 2 + n) / 2 ^ 8 % 2 ^ 8,
   (t * 2 ^ 10 + s * 2 ^ 2 + n) % 2 ^ 8]

/-- C7 counterexample: at `(t, s, n) = (2^29, 0, 0)` the encoding produced
by the code is `[0, 0, 0, 32, 0]` — its byte 0 is 0, so the MSB of byte 0
is not the MSB of `t` (which is 1) — while the layout the claim describes
would give `[128, 0, 0, 0, 0]`. -/
theorem tinyid_layout_cex :
    TinyId.intoBytes (packId (2 ^ 29) 0 0) = [0, 0, 0, 32, 0] ∧
    specMsbFirstBytes (2 ^ 29) 0 0 = [128, 0, 0, 0, 0] ∧
    TinyId.intoBytes (packId (2 ^ 29) 0 0) ≠ specMsbFirstBytes (2 ^ 29) 0 0 := by
  decide

/-- C7 (amended): the packed identifier is little-endian, LSB-first.
Writing `t = t0 + t1·2^8 + t2·2^16 + t3·2^24` (`t3 < 2^6`) and
`s = sLo + sHi·2^2` (`sLo < 2^2`), the five bytes are: the three low bytes
of `t`; then `t`'s top 6 bits in the low bits of byte 3 with `s`'s low
2 bits above them; then `s`'s top 6 bits in the low bits of byte 4 with
`n` in the top 2 bits. -/
theorem tinyid_layout_little_endian (t0 t1 t2 t3 sLo sHi n : Nat)
    (h0 : t0 < 2 ^ 8) (h1 : t1 < 2 ^ 8) (h2 : t2 < 2 ^ 8) (h3 : t3 < 2 ^ 6)
    (hsLo : sLo < 2 ^ 2) (hsHi : sHi < 2 ^ 6) (hn : n < 2 ^ 2) :
    TinyId.intoBytes
        (packId (t0 + t1 * 2 ^ 8 + t2 * 2 ^ 16 + t3 * 2 ^ 24) (sLo + sHi * 2 ^ 2) n) =
      [t0, t1, t2, t3 + sLo * 2 ^ 6, sHi + n * 2 ^ 6] := by
  have hrepr := packId_repr (t0 + t1 * 2 ^ 8 + t2 * 2 ^ 16 + t3 * 2 ^ 24)
    (sLo + sHi * 2 ^ 2) n (by omega) (by omega)
  simp only [TinyId.intoBytes, hrepr, List.cons.injEq, and_true]
  omega

/-- Concrete witness for `tinyid_layout_little_endian`. -/
theorem tinyid_layout_little_endian_witness :
    TinyId.intoBytes
        (packId (7 + 5 * 2 ^ 8 + 9 * 2 ^ 16 + 33 * 2 ^ 24) (3 + 21 * 2 ^ 2) 1) =
      [7, 5, 9, 33 + 3 * 2 ^ 6, 21 + 1 * 2 ^ 6] :=
  tinyid_layout_little_endian 7 5 9 33 3 21 1 (by decide) (by decide) (by decide)
    (by decide) (by decide) (by decide) (by decide)

/-! ## The ID obfuscator (`wormhole-generator/src/obfuscated.rs`)

`Obfuscator::obfuscate` interprets the five id bytes as a 40-bit integer
`source` (via `u64::from_be_bytes` with three leading zero bytes), computes
`(source.wrapping_mul(prime) ^ mask) & LOWER_40_BITS_MASK`, and re-packs
the low five bytes big-endian. -/

def LOWER_40_BITS_MASK : Nat := 2 ^ 40 - 1

/-- Core arithmetic of `Obfuscator::obfuscate` as a map on the 40-bit
integer space: `wrapping_mul` is `% 2^64`, then XOR with the 64-bit mask,
then the 40-bit truncation. -/
def obfuscateU40 (prime mask x : Nat) : Nat :=
  ((x * prime % 2 ^ 64) ^^^ mask) &&& LOWER_40_BITS_MASK

/-- `u64::from_be_bytes([0, 0, 0, raw[0], raw[1], raw[2], raw[3], raw[4]])`. -/
def u40OfBeBytes (bs : List Nat) : Nat :=
  bs.foldl (fun acc b => acc * 2 ^ 8 + b) 0

/-- Low five bytes of a `u64`, big-endian (`to_be_bytes` bytes 3..=7). -/
def beBytesOfU40 (v : Nat) : List Nat :=
  [v / 2 ^ 32 % 2 ^ 8, v / 2 ^ 24 % 2 ^ 8, v / 2 ^ 16 % 2 ^ 8, v / 2 ^ 8 % 2 ^ 8, v % 2 ^ 8]

/-- `Obfuscator::obfuscate`: full byte-level pipeline, producing the five
bytes of the `ObfuscatedTinyID`. -/
def obfuscate (prime mask : Nat) (id : TinyId) : List Nat :=
  beBytesOfU40 (obfuscateU40 prime mask (u40OfBeBytes (TinyId.intoBytes id)))

/-- Inverse transform.  Modelled from the spec: the repository contains no
inverse routine; the spec (§4.3) defines it as undoing the XOR and then
multiplying by `prime`'s multiplicative inverse modulo `2^40` (which exists
because `prime` is odd).  The inverse is realised as
`prime ^ (2^39 - 1) mod 2^40`, a unit inverse by Euler's theorem since
`φ(2^40) = 2^39`. -/
def primeInvU40 (prime : Nat) : Nat := prime ^ (2 ^ 39 - 1) % 2 ^ 40

/-- Inverse of `obfuscateU40` on the 40-bit space, modelled from the spec:
undo the XOR, reduce to the 40-bit space, multiply by the modular inverse. -/
def inverseU40 (prime mask y : Nat) : Nat :=
  (y ^^^ mask) % 2 ^ 40 * primeInvU40 prime % 2 ^ 40

/-- XOR commutes with truncation to a power of two. -/
theorem xor_mod_two_pow (a b n : Nat) :
    (a ^^^ b) % 2 ^ n = a % 2 ^ n ^^^ b % 2 ^ n := by
  apply Nat.eq_of_testBit_eq
  intro i
  by_cases h : i < n <;>
    simp [Nat.testBit_mod_two_pow, Nat.testBit_xor, h]

/-- An odd `prime` times `primeInvU40 prime` is `1` modulo `2^40`. -/
theorem prime_mul_primeInv (prime : Nat) (hp : prime % 2 = 1) :
    prime * primeInvU40 prime ≡ 1 [MOD 2 ^ 40] := by
  have hc2 : Nat.Coprime prime 2 := Nat.coprime_two_right.mpr (Nat.odd_iff.mpr hp)
  have hc : Nat.Coprime prime (2 ^ 40) := hc2.pow_right 40
  have htot : Nat.totient (2 ^ 40) = 2 ^ 39 := by
    rw [Nat.totient_prime_pow Nat.prime_two (by norm_num)]; norm_num
  have he : prime ^ 2 ^ 39 ≡ 1 [MOD 2 ^ 40] := by
    rw [← htot]; exact Nat.ModEq.pow_totient hc
  have h1 : prime * primeInvU40 prime ≡ prime * prime ^ (2 ^ 39 - 1) [MOD 2 ^ 40] :=
    (Nat.mod_modEq _ _).mul_left prime
  have h2 : prime * prime ^ (2 ^ 39 - 1) = prime ^ 2 ^ 39 := by
    rw [← pow_succ']
    congr 1
  calc prime * primeInvU40 prime
      ≡ prime * prime ^ (2 ^ 39 - 1) [MOD 2 ^ 40] := h1
    _ = prime ^ 2 ^ 39 := h2
    _ ≡ 1 [MOD 2 ^ 40] := he

/-- C5: for every `x` in the 40-bit ID space and every odd `prime` and
arbitrary `mask`, the spec's inverse transform undoes
`obfuscate(x) = ((x · prime) XOR mask) mod 2^40`:
`inverse(obfuscate(x)) = x`. -/
theorem obfuscator_roundtrip (prime mask x : Nat)
    (hp : prime % 2 = 1) (hx : x < 2 ^ 40) :
    inverseU40 prime mask (obfuscateU40 prime mask x) = x := by
  have key := prime_mul_primeInv prime hp
  unfold inverseU40 obfuscateU40 LOWER_40_BITS_MASK
  rw [Nat.and_pow_two_sub_one_eq_mod]
  rw [xor_mod_two_pow ((x * prime % 2 ^ 64 ^^^ mask) % 2 ^ 40) mask 40]
  rw [Nat.mod_mod_of_dvd _ dvd_rfl]
  rw [xor_mod_two_pow (x * prime % 2 ^ 64) mask 40]
  rw [Nat.xor_cancel_right]
  have h64 : x * prime % 2 ^ 64 % 2 ^ 40 = x * prime % 2 ^ 40 :=
    Nat.mod_mod_of_dvd _ (pow_dvd_pow 2 (by norm_num))
  rw [h64]
  have hpinv : primeInvU40 prime % 2 ^ 40 = primeInvU40 prime := by
    unfold primeInvU40
    exact Nat.mod_eq_of_lt (Nat.mod_lt _ (by norm_num))
  have hstep : x * prime % 2 ^ 40 * primeInvU40 prime % 2 ^ 40 =
      x * (prime * primeInvU40 prime) % 2 ^ 40 := by
    conv_rhs => rw [← mul_assoc, Nat.mul_mod, hpinv]
  rw [hstep]
  have hfin : x * (prime * primeInvU40 prime) % 2 ^ 40 = x * 1 % 2 ^ 40 :=
    key.mul_left x
  rw [hfin, mul_one, Nat.mod_eq_of_lt hx]

/-- Concrete witness for `obfuscator_roundtrip`, at the default parameters
`prime = 3`, `mask = 0xDEAD_BEEF_CAFE_BABE`. -/
theorem obfuscator_roundtrip_witness :
    (3 : Nat) % 2 = 1 ∧ (123456789 : Nat) < 2 ^ 40 ∧
    inverseU40 3 0xDEADBEEFCAFEBABE (obfuscateU40 3 0xDEADBEEFCAFEBABE 123456789) =
      123456789 :=
  ⟨by decide, by decide,
    obfuscator_roundtrip 3 0xDEADBEEFCAFEBABE 123456789 (by decide) (by decide)⟩

/-! ## The short-code model (`wormhole-core/src/shortcode.rs`, `base58.rs`)

`ShortCodeBase58(SmolStr)` stores the base58-encoded string; its derived
`PartialEq`/`Hash` act on that string.  `ShortCode` is the derived-equality
sum `Generated(ShortCodeBase58) | Custom(String)`. -/

structure ShortCodeBase58 where
  str : String
deriving DecidableEq, Repr

/-- The Bitcoin base58 alphabet used by the `bs58` crate's default encoder. -/
def base58Alphabet : List Char :=
  "123456789ABCDEFGHJKLMNPQRSTUVWXYZabcdefghijkmnopqrstuvwxyz".toList

/-- Digit lookup into the base58 alphabet. -/
def base58Digit (d : Nat) : Char := base58Alphabet.getD d '1'

/-- Big-endian base-58 digit expansion.  Structural recursion on a fuel
argument so the definition reduces inside the kernel; 64 iterations cover
every value below `58^64`, far beyond the 40-bit payloads encoded here. -/
def base58DigitsAux : Nat → Nat → List Char
  | 0, _ => []
  | fuel + 1, n =>
      if n = 0 then []
      else base58DigitsAux fuel (n / 58) ++ [base58Digit (n % 58)]

/-- Base-58 digits of `n` (empty for `n = 0`). -/
def base58Digits (n : Nat) : List Char := base58DigitsAux 64 n

/-- `bs58::encode(bytes).into_string()`: each leading zero byte becomes
`'1'`, the remaining value is written big-endian in base 58. -/
def bs58Encode (bytes : List Nat) : String :=
  String.mk (List.replicate (bytes.takeWhile (fun b => b == 0)).length '1' ++
    base58Digits (bytes.foldl (fun acc b => acc * 2 ^ 8 + b) 0))

/-- `ShortCodeBase58::new(bytes)`: stores the base58 encoding. -/
def ShortCodeBase58.new (bytes : List Nat) : ShortCodeBase58 := ⟨bs58Encode bytes⟩

/-- `ShortCodeBase58::as_str()`. -/
def ShortCodeBase58.asStr (c : ShortCodeBase58) : String := c.str

/-- `ShortenerError` (the constructor relevant to short codes). -/
inductive ShortenerError where
  | invalidShortCode : String → ShortenerError
deriving DecidableEq, Repr

/-- `ShortCode`: tagged sum with derived (structural) equality and hash. -/
inductive ShortCode where
  | Generated : ShortCodeBase58 → ShortCode
  | Custom : String → ShortCode
deriving DecidableEq, Repr

namespace ShortCode

/-- `ShortCode::as_str()`. -/
def asStr : ShortCode → String
  | .Generated tiny => tiny.asStr
  | .Custom s => s

/-- Variant discriminant, as fed to Rust's derived `PartialEq`/`Hash`. -/
def variantIdx : ShortCode → Nat
  | .Generated _ => 0
  | .Custom _ => 1

/-- Abstraction of the data the derived `Hash` feeds to the hasher: the
variant discriminant followed by the inner text (both `SmolStr` and
`String` hash as their textual content).  Two values receive equal hashes
exactly when they feed equal data. -/
def hashInput (c : ShortCode) : Nat × String := (c.variantIdx, c.asStr)

/-- `MIN_LENGTH` from `shortcode.rs`. -/
def MIN_LENGTH : Nat := 3

/-- `MAX_LENGTH` from `shortcode.rs`. -/
def MAX_LENGTH : Nat := 32

/-- The character predicate of `ShortCode::validate`:
`c.is_ascii_alphanumeric() || c == '-' || c == '_'`  (`Char.isAlphanum`
is exactly the ASCII alphanumeric test). -/
def isValidCodeChar (c : Char) : Bool := c.isAlphanum || c == '-' || c == '_'

/-- `ShortCode::validate`: rejects when the UTF-8 byte length (`str::len`)
is outside `[MIN_LENGTH, MAX_LENGTH]`, then when some character fails
`isValidCodeChar`. -/
def validate (code : String) : Except ShortenerError Unit :=
  if code.utf8ByteSize < MIN_LENGTH ∨ MAX_LENGTH < code.utf8ByteSize then
    Except.error (ShortenerError.invalidShortCode "length must be between 3 and 32")
  else if ¬ (code.toList.all isValidCodeChar = true) then
    Except.error (ShortenerError.invalidShortCode
      "must contain only alphanumeric characters, hyphens, or underscores")
  else Except.ok ()

/-- `ShortCode::new`: validate, then wrap in the `Custom` variant. -/
def new (code : String) : Except ShortenerError ShortCode :=
  match validate code with
  | Except.error e => Except.error e
  | Except.ok _ => Except.ok (ShortCode.Custom code)

end ShortCode

/-- The set on which the spec says validation succeeds. -/
def ValidCodePred (code : String) : Prop :=
  ShortCode.MIN_LENGTH ≤ code.utf8ByteSize ∧
    code.utf8ByteSize ≤ ShortCode.MAX_LENGTH ∧
    code.toList.all ShortCode.isValidCodeChar = true

instance (code : String) : Decidable (ValidCodePred code) := by
  unfold ValidCodePred; infer_instance

/-- Validation succeeds exactly on `ValidCodePred`. -/
theorem validate_eq_ok_iff (code : String) :
    ShortCode.validate code = Except.ok () ↔ ValidCodePred code := by
  unfold ShortCode.validate ValidCodePred ShortCode.MIN_LENGTH ShortCode.MAX_LENGTH
  split
  · rename_i hlen
    constructor
    · intro h; exact absurd h (by simp)
    · intro h; omega
  · rename_i hlen
    split
    · rename_i hall
      constructor
      · intro h; exact absurd h (by simp)
      · intro h; exact absurd h.2.2 hall
    · rename_i hall
      simp only [not_not] at hall
      constructor
      · intro _; exact ⟨by omega, by omega, hall⟩
      · intro _; rfl

/-- C8: `ShortCode::new(s)` returns `Ok(Custom(s))` (whose `as_str` is `s`)
exactly when `3 ≤ s.len() ≤ 32` and every character of `s` is ASCII
alphanumeric, `'-'` or `'_'`; on every other string it returns an error. -/
theorem shortcode_new_ok_iff (code : String) :
    (ShortCode.new code = Except.ok (ShortCode.Custom code) ∧
        ShortCode.asStr (ShortCode.Custom code) = code ↔ ValidCodePred code) ∧
    (¬ ValidCodePred code → Except.isOk (ShortCode.new code) = false) := by
  have hv := validate_eq_ok_iff code
  constructor
  · constructor
    · intro h
      apply hv.mp
      unfold ShortCode.new at h
      rcases hval : ShortCode.validate code with e | u
      · rw [hval] at h; exact absurd h.1 (by simp)
      · rfl
    · intro hp
      have hok := hv.mpr hp
      unfold ShortCode.new
      rw [hok]
      exact ⟨rfl, rfl⟩
  · intro hnp
    unfold ShortCode.new
    rcases hval : ShortCode.validate code with e | u
    · rfl
    · exact absurd (hv.mp (by rw [hval])) hnp

/-- Concrete witness for `shortcode_new_ok_iff`: `"ab"` is rejected,
`"abc-123_XYZ"` is accepted verbatim. -/
theorem shortcode_new_ok_iff_witness :
    Except.isOk (ShortCode.new "ab") = false ∧
    ShortCode.new "abc-123_XYZ" = Except.ok (ShortCode.Custom "abc-123_XYZ") :=
  ⟨(shortcode_new_ok_iff "ab").2 (by decide),
    ((shortcode_new_ok_iff "abc-123_XYZ").1.mpr (by decide)).1⟩

/-- C9 counterexample: a `Generated` code and a `Custom` code with the very
same `as_str` text (the base58 encoding of the bytes `[1,2,3,4,5]`) are not
equal under the derived `PartialEq`, and the derived `Hash` feeds them
different data (the discriminants differ). -/
theorem shortcode_eq_cex :
    ShortCode.asStr (ShortCode.Generated (ShortCodeBase58.new [1, 2, 3, 4, 5])) =
      ShortCode.asStr (ShortCode.Custom (ShortCodeBase58.new [1, 2, 3, 4, 5]).str) ∧
    ShortCode.Generated (ShortCodeBase58.new [1, 2, 3, 4, 5]) ≠
      ShortCode.Custom (ShortCodeBase58.new [1, 2, 3, 4, 5]).str ∧
    ShortCode.hashInput (ShortCode.Generated (ShortCodeBase58.new [1, 2, 3, 4, 5])) ≠
      ShortCode.hashInput (ShortCode.Custom (ShortCodeBase58.new [1, 2, 3, 4, 5]).str) := by
  decide

/-- C9 (amended): `ShortCode` equality and hashing are determined by the
pair (variant, textual projection): two values are equal iff they are the
same variant with the same `as_str`, and they feed the hasher equal data
iff they are the same variant with the same `as_str`.  Within one variant
this is equality of `as_str`; across variants values are never equal even
when the texts coincide. -/
theorem shortcode_eq_hash_by_variant_and_text (a b : ShortCode) :
    (a = b ↔ ShortCode.variantIdx a = ShortCode.variantIdx b ∧
        ShortCode.asStr a = ShortCode.asStr b) ∧
    (ShortCode.hashInput a = ShortCode.hashInput b ↔
      ShortCode.variantIdx a = ShortCode.variantIdx b ∧
        ShortCode.asStr a = ShortCode.asStr b) := by
  cases a with
  | Generated x =>
      cases b with
      | Generated y =>
          cases x; cases y
          simp [ShortCode.variantIdx, ShortCode.asStr, ShortCode.hashInput,
            ShortCodeBase58.asStr]
      | Custom t =>
          simp [ShortCode.variantIdx, ShortCode.asStr, ShortCode.hashInput]
  | Custom s =>
      cases b with
      | Generated y =>
          simp [ShortCode.variantIdx, ShortCode.asStr, ShortCode.hashInput]
      | Custom t =>
          simp [ShortCode.variantIdx, ShortCode.asStr, ShortCode.hashInput]

/-! ## Timestamps and URL records

`jiff::Timestamp` is embedded as a whole-second count paired with a
sub-second nanosecond offset, ordered lexicographically;
`as_second` is the seconds component. -/

structure Ts where
  sec : Int
  ns : Nat
deriving DecidableEq, Repr

/-- Strict `Timestamp` comparison (`now < last`). -/
def Ts.ltb (a b : Ts) : Bool :=
  decide (a.sec < b.sec) || (a.sec == b.sec && decide (a.ns < b.ns))

/-- Non-strict `Timestamp` comparison. -/
def Ts.leb (a b : Ts) : Bool :=
  decide (a.sec < b.sec) || (a.sec == b.sec && decide (a.ns ≤ b.ns))

/-- `Timestamp::as_second()`. -/
def Ts.asSecond (t : Ts) : Int := t.sec

/-- `Timestamp::from_second(s)`. -/
def Ts.fromSecond (s : Int) : Ts := ⟨s, 0⟩

theorem ltb_iff {a b : Ts} :
    Ts.ltb a b = true ↔ a.sec < b.sec ∨ (a.sec = b.sec ∧ a.ns < b.ns) := by
  unfold Ts.ltb
  simp [Bool.or_eq_true, Bool.and_eq_true, decide_eq_true_eq, beq_iff_eq]

theorem leb_iff {a b : Ts} :
    Ts.leb a b = true ↔ a.sec < b.sec ∨ (a.sec = b.sec ∧ a.ns ≤ b.ns) := by
  unfold Ts.leb
  simp [Bool.or_eq_true, Bool.and_eq_true, decide_eq_true_eq, beq_iff_eq]

theorem sec_le_of_leb {a b : Ts} (h : Ts.leb a b = true) : a.sec ≤ b.sec := by
  rcases leb_iff.mp h with h1 | h1 <;> omega

theorem sec_le_of_not_ltb {a b : Ts} (h : Ts.ltb a b = false) : b.sec ≤ a.sec := by
  by_contra hc
  push_neg at hc
  exact absurd (ltb_iff.mpr (Or.inl hc)) (by simp [h])

/-- `UrlRecord` (`wormhole-core/src/repository.rs`). -/
structure UrlRecord where
  originalUrl : String
  expireAt : Option Ts
deriving DecidableEq, Repr

/-- Cache errors (the redirector-era `CacheError` constructors that the
cache code matches on; payloads are the formatted messages). -/
inductive CacheError where
  | timeout : String → CacheError
  | unavailable : String → CacheError
  | operation : String → CacheError
deriving DecidableEq, Repr

/-! ## The cache contract (`UrlCache`)

A cache implementation is embedded as a state type `σ` with `get_url` and
`set_url` as state-passing functions (a deterministic single-caller view
of the async trait methods). -/

instance {ε α : Type} [DecidableEq ε] [DecidableEq α] : DecidableEq (Except ε α) :=
  fun a b =>
    match a, b with
    | Except.error e, Except.error f =>
        if h : e = f then isTrue (by rw [h])
        else isFalse (fun hc => h (by injection hc))
    | Except.error _, Except.ok _ => isFalse (fun hc => Except.noConfusion hc)
    | Except.ok _, Except.error _ => isFalse (fun hc => Except.noConfusion hc)
    | Except.ok x, Except.ok y =>
        if h : x = y then isTrue (by rw [h])
        else isFalse (fun hc => h (by injection hc))

structure CacheModel (σ : Type) where
  getUrl : σ → String → Except CacheError (Option UrlRecord) × σ
  setUrl : σ → String → UrlRecord → Except CacheError Unit × σ

/-- A straightforward in-memory cache instance (used to instantiate the
generic theorems): an association list with insert-at-front `set`. -/
def listCache : CacheModel (List (String × UrlRecord)) where
  getUrl s k := (Except.ok ((s.find? (fun p => p.1 == k)).map Prod.snd), s)
  setUrl s k r := (Except.ok (), (k, r) :: s)

/-! ## The layered cache (`wormhole-cache/src/layered.rs`, `get_url`)

Try L1; on an L1 hit return it without touching L2.  On an L1 miss try
L2; on an L2 hit backfill L1 via `set_url` (the `?` propagates a failed
backfill) and return the record; otherwise return `None`.  The final
`Bool` in the result records whether L2 was consulted. -/

def layeredGetUrl {σ1 σ2 : Type} (L1 : CacheModel σ1) (L2 : CacheModel σ2)
    (s1 : σ1) (s2 : σ2) (k : String) :
    Except CacheError (Option UrlRecord) × σ1 × σ2 × Bool :=
  match L1.getUrl s1 k with
  | (Except.error e, s1a) => (Except.error e, s1a, s2, false)
  | (Except.ok (some record), s1a) => (Except.ok (some record), s1a, s2, false)
  | (Except.ok none, s1a) =>
    match L2.getUrl s2 k with
    | (Except.error e, s2a) => (Except.error e, s1a, s2a, true)
    | (Except.ok (some record), s2a) =>
      match L1.setUrl s1a k record with
      | (Except.error e, s1b) => (Except.error e, s1b, s2a, true)
      | (Except.ok _, s1b) => (Except.ok (some record), s1b, s2a, true)
    | (Except.ok none, s2a) => (Except.ok none, s1a, s2a, true)

/-- C6: layered `get(k)` semantics.  (1) an L1 hit is returned as-is, with
L2 not consulted and both states untouched beyond L1's own read; (2) on an
L1 miss and an L2 hit `v`, the call returns `Some v`, the resulting L1
state is the post-backfill state, and — for an L1 whose `get` after that
`set` sees the write — a subsequent `L1.get(k)` returns `Some v`; (3) when
both layers miss the call returns `None`. -/
theorem layered_get_url_spec {σ1 σ2 : Type} (L1 : CacheModel σ1)
    (L2 : CacheModel σ2) (s1 : σ1) (s2 : σ2) (k : String) (v : UrlRecord)
    (s1a s1b : σ1) (s2a : σ2) :
    (L1.getUrl s1 k = (Except.ok (some v), s1a) →
      layeredGetUrl L1 L2 s1 s2 k = (Except.ok (some v), s1a, s2, false)) ∧
    (L1.getUrl s1 k = (Except.ok none, s1a) →
      L2.getUrl s2 k = (Except.ok (some v), s2a) →
      L1.setUrl s1a k v = (Except.ok (), s1b) →
      layeredGetUrl L1 L2 s1 s2 k = (Except.ok (some v), s1b, s2a, true) ∧
        ((L1.getUrl s1b k).1 = Except.ok (some v) →
          (L1.getUrl (layeredGetUrl L1 L2 s1 s2 k).2.1 k).1 = Except.ok (some v))) ∧
    (L1.getUrl s1 k = (Except.ok none, s1a) →
      L2.getUrl s2 k = (Except.ok none, s2a) →
      layeredGetUrl L1 L2 s1 s2 k = (Except.ok none, s1a, s2a, true)) := by
  refine ⟨fun h1 => ?_, fun h1 h2 h3 => ?_, fun h1 h2 => ?_⟩
  · simp only [layeredGetUrl, h1]
  · have hres : layeredGetUrl L1 L2 s1 s2 k = (Except.ok (some v), s1b, s2a, true) := by
      simp only [layeredGetUrl, h1, h2, h3]
    exact ⟨hres, fun hb => by rw [hres]; exact hb⟩
  · simp only [layeredGetUrl, h1, h2]

/-- Record used by the concrete cache scenarios. -/
def exampleRecord : UrlRecord := ⟨"https://example.com", none⟩

/-- Concrete witness for `layered_get_url_spec`: with assoc-list layers,
an empty L1 and an L2 holding `abc123 ↦ exampleRecord`, the layered get
returns the record, consults L2, and backfills L1 so that a subsequent
`L1.get` hits. -/
theorem layered_get_url_spec_witness :
    layeredGetUrl listCache listCache [] [("abc123", exampleRecord)] "abc123" =
      (Except.ok (some exampleRecord), [("abc123", exampleRecord)],
        [("abc123", exampleRecord)], true) ∧
    (listCache.getUrl
        (layeredGetUrl listCache listCache [] [("abc123", exampleRecord)] "abc123").2.1
        "abc123").1 = Except.ok (some exampleRecord) := by
  have h := (layered_get_url_spec listCache listCache []
    [("abc123", exampleRecord)] "abc123" exampleRecord []
    [("abc123", exampleRecord)] [("abc123", exampleRecord)]).2.1
    (by decide) (by decide) (by decide)
  exact ⟨h.1, h.2 (by decide)⟩

/-! ## The cached repository (`wormhole-redirector/src/repository/cached.rs`)

`CachedRepository::get` consults the cache; a cache hit is returned.  On a
cache miss **or cache error** it falls through to the inner store; a store
hit is written back to the cache with any write error ignored (logged
only); store errors propagate.  (The `default_ttl` argument threaded to
`set_url` belongs to an older trait revision — the `UrlCache` trait in
`wormhole-core` takes no TTL — and is not modelled.) -/

def repoFetch {σ : Type} (C : CacheModel σ)
    (store : String → Except CacheError (Option UrlRecord)) (s : σ) (k : String) :
    Except CacheError (Option UrlRecord) × σ :=
  match store k with
  | Except.error e => (Except.error e, s)
  | Except.ok none => (Except.ok none, s)
  | Except.ok (some record) => (Except.ok (some record), (C.setUrl s k record).2)

def repoGet {σ : Type} (C : CacheModel σ)
    (store : String → Except CacheError (Option UrlRecord)) (s : σ) (k : String) :
    Except CacheError (Option UrlRecord) × σ :=
  match C.getUrl s k with
  | (Except.ok (some record), s2) => (Except.ok (some record), s2)
  | (Except.ok none, s2) => repoFetch C store s2 k
  | (Except.error _, s2) => repoFetch C store s2 k

/-- Default `UrlCache::get_or_compute` (`wormhole-core/src/cache.rs`):
`get_url?`; on `Some` return it; on `None` run `fetch?`, `set_url?` the
fetched record if any, and return it.  Every `?` propagates the error. -/
def getOrComputeDefault {σ : Type} (C : CacheModel σ)
    (fetch : String → Except CacheError (Option UrlRecord)) (s : σ) (k : String) :
    Except CacheError (Option UrlRecord) × σ :=
  match C.getUrl s k with
  | (Except.error e, s2) => (Except.error e, s2)
  | (Except.ok (some record), s2) => (Except.ok (some record), s2)
  | (Except.ok none, s2) =>
    match fetch k with
    | Except.error e => (Except.error e, s2)
    | Except.ok none => (Except.ok none, s2)
    | Except.ok (some value) =>
      match C.setUrl s2 k value with
      | (Except.error e, s3) => (Except.error e, s3)
      | (Except.ok _, s3) => (Except.ok (some value), s3)

/-- A cache whose reads always fail (e.g. the backend is down). -/
def failCache : CacheModel Unit where
  getUrl _ _ := (Except.error (CacheError.timeout "cache down"), ())
  setUrl _ _ _ := (Except.ok (), ())

/-- A store holding `exampleRecord` under every key. -/
def okStore : String → Except CacheError (Option UrlRecord) :=
  fun _ => Except.ok (some exampleRecord)

/-- C4 counterexample: when the cache read fails, `CachedRepository::get`
falls back to the store and returns the record, while
`cache.get_or_compute(k, store.get)` propagates the cache error — the two
are not observably equivalent (different value, different error
behaviour). -/
theorem cached_repo_get_cex :
    repoGet failCache okStore () "abc123" = (Except.ok (some exampleRecord), ()) ∧
    getOrComputeDefault failCache okStore () "abc123" =
      (Except.error (CacheError.timeout "cache down"), ()) ∧
    (repoGet failCache okStore () "abc123").1 ≠
      (getOrComputeDefault failCache okStore () "abc123").1 := by
  decide

/-- C4 (amended): `CachedRepository::get(k)` is *not* implemented via
`get_or_compute`; the two agree — same returned value and same resulting
cache state — exactly when the cache's `get_url`/`set_url` for `k` do not
fail.  (No single-flight guarantee is inherited, since `get` never calls
`get_or_compute`.) -/
theorem cached_repo_get_equiv {σ : Type} (C : CacheModel σ)
    (store : String → Except CacheError (Option UrlRecord)) (s : σ) (k : String)
    (hget : ∀ t : σ, ∃ v t2, C.getUrl t k = (Except.ok v, t2))
    (hset : ∀ (t : σ) (r : UrlRecord), ∃ t2, C.setUrl t k r = (Except.ok (), t2)) :
    repoGet C store s k = getOrComputeDefault C store s k := by
  obtain ⟨v, t2, hg⟩ := hget s
  cases v with
  | some record => simp only [repoGet, getOrComputeDefault, hg]
  | none =>
    simp only [repoGet, getOrComputeDefault, hg, repoFetch]
    cases hst : store k with
    | error e => rfl
    | ok r =>
      cases r with
      | none => rfl
      | some record =>
        obtain ⟨t3, hs3⟩ := hset t2 record
        simp only [hs3]

/-- Concrete witness for `cached_repo_get_equiv` with the assoc-list cache
(whose operations never fail) over the `okStore`. -/
theorem cached_repo_get_equiv_witness :
    repoGet listCache okStore [] "abc123" =
      getOrComputeDefault listCache okStore [] "abc123" :=
  cached_repo_get_equiv listCache okStore [] "abc123"
    (fun t => ⟨(t.find? (fun p : String × UrlRecord => p.1 == "abc123")).map Prod.snd,
      t, rfl⟩)
    (fun t r => ⟨("abc123", r) :: t, rfl⟩)

/-! ## The Tinyflake generator (`wormhole-tinyflake/src/tinyflake.rs`)

`next_id` reads the clock, resolves clock regress and sequence exhaustion
by blocking in `clock.wait_until`, checks the 30-bit timestamp guard, and
emits a packed id.  Each call's clock reads are supplied by a `ClockFuel`
oracle: `now1` is the initial `clock.now()`, `nowAfterRegressWait` the
re-read after `wait_until(last)` in the clock-regress branch, and
`nowAfterSeqWait` the re-read after `wait_until(next_second)` in the
sequence-exhaustion branch.  `Error::StatePoisoned` (mutex poisoning,
unreachable single-threadedly) is not modelled. -/

def MAX_TIMESTAMP_SECONDS : Nat := 2 ^ 30 - 1

def MAX_SEQUENCE : Nat := 255

structure TinyflakeSettings where
  nodeId : Nat
  startEpoch : Ts
deriving DecidableEq, Repr

structure GeneratorState where
  lastElapsedTimestamp : Option Ts
  sequence : Nat
deriving DecidableEq, Repr

/-- `GeneratorState::default()`. -/
def initialState : GeneratorState := ⟨none, 0⟩

inductive GenError where
  | overTimeLimit
deriving DecidableEq, Repr

structure ClockFuel where
  now1 : Ts
  nowAfterRegressWait : Ts
  nowAfterSeqWait : Ts
deriving DecidableEq, Repr

/-- The branch of `next_id` that chooses the emission instant and the
sequence number: first call starts at sequence 0; otherwise wait out a
clock regress, then increment within the same second, wait for the next
second on sequence exhaustion, or reset on a new second. -/
def nextNowSeq (st : GeneratorState) (c : ClockFuel) : Ts × Nat :=
  match st.lastElapsedTimestamp with
  | none => (c.now1, 0)
  | some last =>
    let now := if Ts.ltb c.now1 last then c.nowAfterRegressWait else c.now1
    if now.asSecond = last.asSecond then
      if st.sequence < MAX_SEQUENCE then (now, st.sequence + 1)
      else (c.nowAfterSeqWait, 0)
    else (now, 0)

/-- `Tinyflake::next_id`, one call.  `elapsed` is
`now.as_second() - start_time.as_second()`; the source guard
`elapsed as u64 > MAX_TIMESTAMP_SECONDS` is embedded as
`elapsed < 0 ∨ MAX < elapsed`, its value throughout the i64 range jiff
timestamps inhabit.  The state is returned on both paths: on the error
path the source has already overwritten `state.sequence` but not
`last_elapsed_timestamp`. -/
def nextId (g : TinyflakeSettings) (st : GeneratorState) (c : ClockFuel) :
    Except GenError TinyId × GeneratorState :=
  if (nextNowSeq st c).1.asSecond - g.startEpoch.asSecond < 0 ∨
      (MAX_TIMESTAMP_SECONDS : Int) <
        (nextNowSeq st c).1.asSecond - g.startEpoch.asSecond then
    (Except.error GenError.overTimeLimit, ⟨st.lastElapsedTimestamp, (nextNowSeq st c).2⟩)
  else
    (Except.ok
      (packId ((nextNowSeq st c).1.asSecond - g.startEpoch.asSecond).toNat
        (nextNowSeq st c).2 g.nodeId),
      ⟨some (nextNowSeq st c).1, (nextNowSeq st c).2⟩)

/-- The claim's clock hypothesis, per call: whenever the call invokes
`wait_until(target)`, the `clock.now()` read that follows returns no
earlier than `target`. -/
def validFuel (st : GeneratorState) (c : ClockFuel) : Bool :=
  match st.lastElapsedTimestamp with
  | none => true
  | some last =>
    (if Ts.ltb c.now1 last then Ts.leb last c.nowAfterRegressWait else true) &&
    (if (if Ts.ltb c.now1 last then c.nowAfterRegressWait else c.now1).asSecond =
          last.asSecond ∧ ¬ st.sequence < MAX_SEQUENCE then
       Ts.leb (Ts.fromSecond (last.asSecond + 1)) c.nowAfterSeqWait
     else true)

/-- Results of a sequence of `next_id` calls on one generator instance. -/
def runList (g : TinyflakeSettings) :
    GeneratorState → List ClockFuel → List (Except GenError TinyId)
  | _, [] => []
  | st, c :: cs => (nextId g st c).1 :: runList g (nextId g st c).2 cs

/-- Every call of the trace satisfies the clock hypothesis, against the
state it actually runs in. -/
def validRun (g : TinyflakeSettings) : GeneratorState → List ClockFuel → Bool
  | _, [] => true
  | st, c :: cs => validFuel st c && validRun g (nextId g st c).2 cs

/-- The `(timestamp, sequence)` pairs of the successfully emitted ids. -/
def emittedPairs (rs : List (Except GenError TinyId)) : List (Nat × Nat) :=
  rs.filterMap fun r =>
    match r with
    | Except.ok id => some (id.timestamp, id.sequence)
    | Except.error _ => none

/-- Lexicographic order on `(timestamp, sequence)`. -/
def pairLt (a b : Nat × Nat) : Prop := a.1 < b.1 ∨ (a.1 = b.1 ∧ a.2 < b.2)

/-- Generator used by the C2 counterexample: node 0, epoch at second 0. -/
def cexSettings : TinyflakeSettings := ⟨0, ⟨0, 0⟩⟩

/-- Clock trace of the C2 counterexample: seconds 100, 100, `2^30 + 7`
(beyond the 30-bit limit), then back to 100.  No call ever reaches a
`wait_until`, so the clock hypothesis holds vacuously. -/
def cexFuels : List ClockFuel :=
  [⟨⟨100, 0⟩, ⟨100, 0⟩, ⟨101, 0⟩⟩,
   ⟨⟨100, 0⟩, ⟨100, 0⟩, ⟨101, 0⟩⟩,
   ⟨⟨2 ^ 30 + 7, 0⟩, ⟨2 ^ 30 + 7, 0⟩, ⟨2 ^ 30 + 8, 0⟩⟩,
   ⟨⟨100, 0⟩, ⟨100, 0⟩, ⟨101, 0⟩⟩]

/-- C2 counterexample: a trace satisfying the claim's clock hypothesis on
which call 2 and call 4 both succeed with the *same* `(timestamp,
sequence)` pair `(100, 1)`.  The failed call 3 (`OverTimeLimit`) resets
`state.sequence` to 0 without updating `last_elapsed_timestamp`, so after
the clock regresses the generator re-issues a previously emitted pair —
the successful outputs are neither strictly increasing nor duplicate-free. -/
theorem tinyflake_regress_duplicate_cex :
    validRun cexSettings initialState cexFuels = true ∧
    runList cexSettings initialState cexFuels =
      [Except.ok (packId 100 0 0), Except.ok (packId 100 1 0),
       Except.error GenError.overTimeLimit, Except.ok (packId 100 1 0)] ∧
    emittedPairs (runList cexSettings initialState cexFuels) =
      [(100, 0), (100, 1), (100, 1)] := by
  decide

/-- Relation between the generator state after a successful call and the
`(timestamp, sequence)` pair that call emitted. -/
def StateMatches (g : TinyflakeSettings) (st : GeneratorState) (p : Nat × Nat) : Prop :=
  ∃ last, st.lastElapsedTimestamp = some last ∧ st.sequence = p.2 ∧
    p.2 ≤ MAX_SEQUENCE ∧ last.asSecond - g.startEpoch.asSecond = (p.1 : Int) ∧
    p.1 ≤ MAX_TIMESTAMP_SECONDS

theorem nextNowSeq_seq_le (st : GeneratorState) (c : ClockFuel) :
    (nextNowSeq st c).2 ≤ MAX_SEQUENCE := by
  cases hl : st.lastElapsedTimestamp with
  | none => simp [nextNowSeq, hl, MAX_SEQUENCE]
  | some last =>
    simp only [nextNowSeq, hl]
    split_ifs with h1 h2 <;> dsimp only <;> omega

/-- Shape of a successful `next_id` call: the guard passed, the id is the
packed `(elapsed, seq, node)` triple, and the state records the emission
instant and sequence. -/
theorem nextId_ok_shape (g : TinyflakeSettings) (st : GeneratorState)
    (c : ClockFuel) (id : TinyId) (hok : (nextId g st c).1 = Except.ok id) :
    0 ≤ (nextNowSeq st c).1.asSecond - g.startEpoch.asSecond ∧
    (nextNowSeq st c).1.asSecond - g.startEpoch.asSecond ≤ (MAX_TIMESTAMP_SECONDS : Int) ∧
    id = packId ((nextNowSeq st c).1.asSecond - g.startEpoch.asSecond).toNat
      (nextNowSeq st c).2 g.nodeId ∧
    (nextId g st c).2 = ⟨some (nextNowSeq st c).1, (nextNowSeq st c).2⟩ := by
  unfold nextId at hok ⊢
  by_cases hg : (nextNowSeq st c).1.asSecond - g.startEpoch.asSecond < 0 ∨
      (MAX_TIMESTAMP_SECONDS : Int) < (nextNowSeq st c).1.asSecond - g.startEpoch.asSecond
  · rw [if_pos hg] at hok
    exact absurd hok (by simp)
  · rw [if_neg hg] at hok
    push_neg at hg
    have hid : id = packId ((nextNowSeq st c).1.asSecond - g.startEpoch.asSecond).toNat
        (nextNowSeq st c).2 g.nodeId := by
      injection hok with h
      exact h.symm
    refine ⟨hg.1, hg.2, hid, ?_⟩
    rw [if_neg (by push_neg; exact hg)]

/-- Case analysis of the emission instant chosen by a non-first call under
the clock hypothesis: either the call stays in `last`'s second and
increments the sequence, or it moves to a strictly later second with
sequence 0. -/
theorem nextNowSeq_cases (st : GeneratorState) (c : ClockFuel) (last : Ts)
    (hl : st.lastElapsedTimestamp = some last) (hv : validFuel st c = true) :
    ((nextNowSeq st c).1.asSecond = last.asSecond ∧
      (nextNowSeq st c).2 = st.sequence + 1 ∧ st.sequence < MAX_SEQUENCE) ∨
    (last.asSecond < (nextNowSeq st c).1.asSecond ∧ (nextNowSeq st c).2 = 0) := by
  unfold validFuel at hv
  rw [hl] at hv
  rw [Bool.and_eq_true] at hv
  unfold nextNowSeq
  rw [hl]
  simp only
  have hlastle : last.asSecond ≤
      (if Ts.ltb c.now1 last then c.nowAfterRegressWait else c.now1).asSecond := by
    by_cases hr : Ts.ltb c.now1 last
    · rw [if_pos hr]
      rw [if_pos hr] at hv
      exact sec_le_of_leb hv.1
    · rw [if_neg hr]
      exact sec_le_of_not_ltb (Bool.not_eq_true _ ▸ hr)
  by_cases hsame : (if Ts.ltb c.now1 last then c.nowAfterRegressWait else c.now1).asSecond
      = last.asSecond
  · by_cases hs : st.sequence < MAX_SEQUENCE
    · rw [if_pos hsame, if_pos hs]
      exact Or.inl ⟨hsame, rfl, hs⟩
    · rw [if_pos hsame, if_neg hs]
      have hwait := hv.2
      rw [if_pos ⟨hsame, hs⟩] at hwait
      have := sec_le_of_leb hwait
      refine Or.inr ⟨?_, rfl⟩
      simp only [Ts.fromSecond, Ts.asSecond] at this ⊢
      omega
  · rw [if_neg hsame]
    refine Or.inr ⟨?_, rfl⟩
    exact lt_of_le_of_ne hlastle (fun h => hsame h.symm)

/-- One successful step strictly increases the emitted pair and preserves
the state relation. -/
theorem nextId_step (g : TinyflakeSettings) (st : GeneratorState) (c : ClockFuel)
    (p : Nat × Nat) (id : TinyId) (hm : StateMatches g st p)
    (hv : validFuel st c = true) (hok : (nextId g st c).1 = Except.ok id) :
    pairLt p (id.timestamp, id.sequence) ∧
    StateMatches g (nextId g st c).2 (id.timestamp, id.sequence) := by
  obtain ⟨last, hl, hseq, hple, hsec, hpmax⟩ := hm
  obtain ⟨he0, hemax, hid, hst2⟩ := nextId_ok_shape g st c id hok
  have hseqle := nextNowSeq_seq_le st c
  have htlt : ((nextNowSeq st c).1.asSecond - g.startEpoch.asSecond).toNat < 2 ^ 30 := by
    unfold MAX_TIMESTAMP_SECONDS at hemax
    omega
  have hslt : (nextNowSeq st c).2 < 2 ^ 8 := by
    unfold MAX_SEQUENCE at hseqle
    omega
  have hfld := packId_fields ((nextNowSeq st c).1.asSecond - g.startEpoch.asSecond).toNat
    (nextNowSeq st c).2 g.nodeId htlt hslt
  have hts : id.timestamp = ((nextNowSeq st c).1.asSecond - g.startEpoch.asSecond).toNat := by
    rw [hid]; exact hfld.1
  have hsq : id.sequence = (nextNowSeq st c).2 := by
    rw [hid]; exact hfld.2.1
  rcases nextNowSeq_cases st c last hl hv with ⟨hsame, hns2, hslt255⟩ | ⟨hlt, hns2⟩
  · have hel : (nextNowSeq st c).1.asSecond - g.startEpoch.asSecond = (p.1 : Int) := by
      rw [hsame]; exact hsec
    constructor
    · right
      constructor
      · rw [hts, hel]; omega
      · rw [hsq, hns2, ← hseq]; omega
    · refine ⟨(nextNowSeq st c).1, by rw [hst2], by rw [hst2, hsq], ?_, ?_, ?_⟩
      · rw [hsq, hns2]
        unfold MAX_SEQUENCE
        unfold MAX_SEQUENCE at hslt255
        omega
      · rw [hel, hts]; omega
      · rw [hts]
        unfold MAX_TIMESTAMP_SECONDS
        unfold MAX_TIMESTAMP_SECONDS at hemax
        omega
  · have hel : (p.1 : Int) < (nextNowSeq st c).1.asSecond - g.startEpoch.asSecond := by
      omega
    constructor
    · left
      rw [hts]; omega
    · refine ⟨(nextNowSeq st c).1, by rw [hst2], by rw [hst2, hsq], ?_, ?_, ?_⟩
      · rw [hsq, hns2]; unfold MAX_SEQUENCE; omega
      · rw [hts]; omega
      · rw [hts]
        unfold MAX_TIMESTAMP_SECONDS
        unfold MAX_TIMESTAMP_SECONDS at hemax
        omega

/-- A successful first call (fresh state) establishes the state relation. -/
theorem nextId_ok_init (g : TinyflakeSettings) (st : GeneratorState) (c : ClockFuel)
    (id : TinyId) (hl : st.lastElapsedTimestamp = none)
    (hok : (nextId g st c).1 = Except.ok id) :
    StateMatches g (nextId g st c).2 (id.timestamp, id.sequence) := by
  obtain ⟨he0, hemax, hid, hst2⟩ := nextId_ok_shape g st c id hok
  have hns : nextNowSeq st c = (c.now1, 0) := by
    unfold nextNowSeq; rw [hl]
  have htlt : ((nextNowSeq st c).1.asSecond - g.startEpoch.asSecond).toNat < 2 ^ 30 := by
    unfold MAX_TIMESTAMP_SECONDS at hemax
    omega
  have hfld := packId_fields ((nextNowSeq st c).1.asSecond - g.startEpoch.asSecond).toNat
    (nextNowSeq st c).2 g.nodeId htlt (by rw [hns]; norm_num)
  refine ⟨(nextNowSeq st c).1, by rw [hst2], ?_, ?_, ?_, ?_⟩
  · rw [hst2, hid]
    exact hfld.2.1.symm
  · rw [hid]
    rw [hfld.2.1, hns]
    unfold MAX_SEQUENCE
    omega
  · rw [hid, hfld.1]
    omega
  · rw [hid, hfld.1]
    unfold MAX_TIMESTAMP_SECONDS
    unfold MAX_TIMESTAMP_SECONDS at hemax
    omega

instance : IsTrans (Nat × Nat) pairLt :=
  ⟨by intro a b c hab hbc; unfold pairLt at *; omega⟩

theorem runList_chain (g : TinyflakeSettings) (cs : List ClockFuel) :
    ∀ (st : GeneratorState) (p : Nat × Nat), StateMatches g st p →
      validRun g st cs = true →
      (∀ r ∈ runList g st cs, Except.isOk r = true) →
      List.Chain' pairLt (p :: emittedPairs (runList g st cs)) := by
  induction cs with
  | nil =>
    intro st p _ _ _
    simp [runList, emittedPairs]
  | cons c cs ih =>
    intro st p hm hv hok
    have hv2 : validFuel st c = true ∧ validRun g (nextId g st c).2 cs = true := by
      simpa [validRun, Bool.and_eq_true] using hv
    have hokhead : Except.isOk (nextId g st c).1 = true :=
      hok _ (by simp [runList])
    obtain ⟨id, hid⟩ : ∃ id, (nextId g st c).1 = Except.ok id := by
      cases h : (nextId g st c).1 with
      | error e => rw [h] at hokhead; exact absurd hokhead (by simp [Except.isOk, Except.toBool])
      | ok id => exact ⟨id, rfl⟩
    have hstep := nextId_step g st c p id hm hv2.1 hid
    have htl := ih (nextId g st c).2 (id.timestamp, id.sequence) hstep.2 hv2.2
      (fun r hr => hok r (by simp [runList]; right; exact hr))
    have hemit : emittedPairs (runList g st (c :: cs)) =
        (id.timestamp, id.sequence) :: emittedPairs (runList g (nextId g st c).2 cs) := by
      simp [runList, emittedPairs, hid]
    rw [hemit]
    exact List.chain'_cons.mpr ⟨hstep.1, htl⟩

/-- C2 (amended): on a single generator with fixed `(node, start_epoch)`
and a clock whose `wait_until` reads return no earlier than their target,
**provided every call of the trace succeeds** (no `OverTimeLimit` failure
intervenes), the emitted `(timestamp, sequence)` pairs are strictly
increasing lexicographically, and in particular no previously emitted pair
is ever emitted again.  (Without the all-success proviso the property
fails: see the counterexample, where a failed call clobbers the sequence
counter.) -/
theorem tinyflake_monotone (g : TinyflakeSettings) (cs : List ClockFuel)
    (hv : validRun g initialState cs = true)
    (hok : ∀ r ∈ runList g initialState cs, Except.isOk r = true) :
    List.Pairwise pairLt (emittedPairs (runList g initialState cs)) ∧
    List.Pairwise (fun a b => a ≠ b) (emittedPairs (runList g initialState cs)) := by
  have hchain : List.Chain' pairLt (emittedPairs (runList g initialState cs)) := by
    cases cs with
    | nil => simp [runList, emittedPairs]
    | cons c cs =>
      have hv2 : validFuel initialState c = true ∧
          validRun g (nextId g initialState c).2 cs = true := by
        simpa [validRun, Bool.and_eq_true] using hv
      have hokhead : Except.isOk (nextId g initialState c).1 = true :=
        hok _ (by simp [runList])
      obtain ⟨id, hid⟩ : ∃ id, (nextId g initialState c).1 = Except.ok id := by
        cases h : (nextId g initialState c).1 with
        | error e => rw [h] at hokhead; exact absurd hokhead (by simp [Except.isOk, Except.toBool])
        | ok id => exact ⟨id, rfl⟩
      have hinit := nextId_ok_init g initialState c id rfl hid
      have htl := runList_chain g cs (nextId g initialState c).2
        (id.timestamp, id.sequence) hinit hv2.2
        (fun r hr => hok r (by simp [runList]; right; exact hr))
      have hemit : emittedPairs (runList g initialState (c :: cs)) =
          (id.timestamp, id.sequence) ::
            emittedPairs (runList g (nextId g initialState c).2 cs) := by
        simp [runList, emittedPairs, hid]
      rw [hemit]
      exact htl
  have hpw : List.Pairwise pairLt (emittedPairs (runList g initialState cs)) :=
    List.chain'_iff_pairwise.mp hchain
  refine ⟨hpw, hpw.imp ?_⟩
  intro a b hab he
  subst he
  rcases hab with h | ⟨_, h⟩ <;> exact absurd h (lt_irrefl _)

/-- Concrete witness for `tinyflake_monotone`: an all-success two-call
trace at seconds 100 then 101. -/
theorem tinyflake_monotone_witness :
    List.Pairwise pairLt (emittedPairs (runList cexSettings initialState
      [⟨⟨100, 0⟩, ⟨100, 0⟩, ⟨101, 0⟩⟩, ⟨⟨101, 0⟩, ⟨101, 0⟩, ⟨102, 0⟩⟩])) ∧
    List.Pairwise (fun a b => a ≠ b) (emittedPairs (runList cexSettings initialState
      [⟨⟨100, 0⟩, ⟨100, 0⟩, ⟨101, 0⟩⟩, ⟨⟨101, 0⟩, ⟨101, 0⟩, ⟨102, 0⟩⟩])) :=
  tinyflake_monotone cexSettings
    [⟨⟨100, 0⟩, ⟨100, 0⟩, ⟨101, 0⟩⟩, ⟨⟨101, 0⟩, ⟨101, 0⟩, ⟨102, 0⟩⟩]
    (by decide) (by decide)

/-! ## `ObfuscatedTinyFlake` (`wormhole-generator/src/obfuscated.rs`) -/

/-- `ObfuscatedTinyFlake::next_obfuscated_id` (the body of
`Generator::generate`): `self.inner.next_id().unwrap()` followed by
`self.obfuscator.obfuscate(id)`.  The `unwrap` panic on the error path is
modelled as `none`: no value reaches the caller and the error is not
surfaced as a value. -/
def nextObfuscatedId (g : TinyflakeSettings) (prime mask : Nat)
    (st : GeneratorState) (c : ClockFuel) : Option (List Nat) × GeneratorState :=
  match nextId g st c with
  | (Except.ok id, st2) => (some (obfuscate prime mask id), st2)
  | (Except.error _, st2) => (none, st2)

/-- C10: `next_obfuscated_id` returns normally exactly when the inner
`next_id` succeeds; whenever `next_id` returns an error (e.g.
`OverTimeLimit`), the call panics (`unwrap`) instead of surfacing the
error to the caller. -/
theorem next_obfuscated_id_unwraps (g : TinyflakeSettings) (prime mask : Nat)
    (st : GeneratorState) (c : ClockFuel) :
    (∀ e, (nextId g st c).1 = Except.error e →
      (nextObfuscatedId g prime mask st c).1 = none) ∧
    (∀ id, (nextId g st c).1 = Except.ok id →
      (nextObfuscatedId g prime mask st c).1 = some (obfuscate prime mask id)) := by
  rcases hn : nextId g st c with ⟨r, st2⟩
  constructor
  · intro e he
    have hr : r = Except.error e := he
    subst hr
    simp [nextObfuscatedId, hn]
  · intro id hid
    have hr : r = Except.ok id := hid
    subst hr
    simp [nextObfuscatedId, hn]

/-- Concrete witness for `next_obfuscated_id_unwraps`: with the epoch at
second 0 and the clock at second `2^30` (one past the 30-bit limit),
`next_id` fails with `OverTimeLimit` and `next_obfuscated_id` produces no
value (panic). -/
theorem next_obfuscated_id_unwraps_witness :
    (nextObfuscatedId cexSettings 3 0xDEADBEEFCAFEBABE initialState
      ⟨⟨2 ^ 30, 0⟩, ⟨2 ^ 30, 0⟩, ⟨2 ^ 30 + 1, 0⟩⟩).1 = none :=
  (next_obfuscated_id_unwraps cexSettings 3 0xDEADBEEFCAFEBABE initialState
    ⟨⟨2 ^ 30, 0⟩, ⟨2 ^ 30, 0⟩, ⟨2 ^ 30 + 1, 0⟩⟩).1 GenError.overTimeLimit (by decide)

end Wormhole
